import Mathlib

/-!
Verification development for the Wayback Machine keyword scanner
(src/server/routes.ts).  The three components are embedded shallowly:

* the Snapshot Index Client (fetchSnapshots, lines 18-57),
* the Snapshot Extractor (extractData, lines 59-153),
* the Scan Orchestrator (the /api/scan handler, lines 159-293).

Strings are modelled as lists of characters.  The cheerio HTML library is
an external collaborator; a parsed, cleaned document (after removal of the
archive toolbar elements and archive-referencing scripts) is modelled by
the structure Doc below, carrying exactly the three views the code reads
from it: the body text, the script bodies, and the re-serialized markup.
JavaScript regular expressions appear in the code only as (a) the escaped
keyword compiled with flags gi and (b) the fixed comment pattern; both are
modelled by a list of single-character items (literal or wildcard) plus an
exec-style cursor loop.  The loops are written with an explicit fuel equal
to the length bound of the scanned text, which is proved sufficient.
-/

/-- Apostrophe character, used by the orchestrator when quoting the keyword
in the analyzing message. -/
def apos : Char := Char.ofNat 39

/-- Whitespace collapsing, one step of replace with a whitespace-run regex:
the Boolean records whether the previous character was whitespace, in which
case further whitespace is dropped rather than turned into a space. -/
def collapseWsAux : Bool → List Char → List Char
  | _, [] => []
  | prev, c :: rest =>
    if c.isWhitespace then
      (if prev then collapseWsAux true rest else ' ' :: collapseWsAux true rest)
    else c :: collapseWsAux false rest

/-- Model of s.replace with a whitespace-run pattern and a single space,
as applied to the body text on line 70. -/
def collapseWs (cs : List Char) : List Char := collapseWsAux false cs

/-- Model of the JavaScript String.prototype.trim. -/
def jsTrim (cs : List Char) : List Char :=
  ((cs.dropWhile Char.isWhitespace).reverse.dropWhile Char.isWhitespace).reverse

/-- Model of s.replace with a newline pattern and a single space. -/
def stripNl (cs : List Char) : List Char :=
  cs.map (fun c => if c = '\n' then ' ' else c)

/-- Snippet window of the extractor: substring from max 0 (i - 30) to
min length (i + kwLen + 30), as on lines 75-77, 100-102 and 134-136. -/
def window (zone : List Char) (kwLen i : Nat) : List Char :=
  (zone.drop (i - 30)).take (min zone.length (i + kwLen + 30) - (i - 30))

/-- Snippet ellipsis bounding, the two string concatenations around the
window. -/
def ellipsisWrap (cs : List Char) : List Char :=
  "...".toList ++ cs ++ "...".toList

/-- Case-sensitive check that needle is a prefix of hay, used for the
comment delimiters and the includes check. -/
def exactHeadMatch : List Char → List Char → Bool
  | [], _ => true
  | _ :: _, [] => false
  | a :: as, b :: bs => a == b && exactHeadMatch as bs

/-- Leftmost case-sensitive occurrence of needle in hay at a position in
the interval from p of the given width. -/
def exactFindAux (needle hay : List Char) : Nat → Nat → Option Nat
  | 0, _ => none
  | n + 1, p =>
    if exactHeadMatch needle (hay.drop p) then some p
    else exactFindAux needle hay n (p + 1)

/-- Leftmost case-sensitive occurrence of needle in hay at position p or
later. -/
def exactFindFrom (needle hay : List Char) (p : Nat) : Option Nat :=
  exactFindAux needle hay (hay.length + 1 - p) p

/-- Model of the JavaScript String.prototype.includes, used on line 128
for the FILE ARCHIVED ON marker. -/
def containsSub (needle hay : List Char) : Bool :=
  (exactFindFrom needle hay 0).isSome

/-- Regex items for the fragment of JavaScript regular expressions
reachable from an escaped keyword: a literal character, or the wildcard
dot.  Every item consumes exactly one character. -/
inductive RItem
  | lit (c : Char)
  | dot
  deriving DecidableEq

/-- Metacharacter class of the escaping replace on line 67. -/
def isMeta (c : Char) : Bool :=
  c = '.' || c = '*' || c = '+' || c = '?' || c = '^' || c = '$' ||
  c = Char.ofNat 123 || c = Char.ofNat 125 || c = '(' || c = ')' ||
  c = '|' || c = '[' || c = ']' || c = '\\'

/-- Model of keyword.replace on line 67: a backslash is inserted before
every regex metacharacter. -/
def escapeRegex : List Char → List Char
  | [] => []
  | c :: rest => (if isMeta c then ['\\', c] else [c]) ++ escapeRegex rest

/-- Parser from the escaped pattern source to regex items: a backslash
escapes the following character into a literal, an unescaped dot is the
wildcard, and any other character is itself a literal.  The escaped
keywords produced by escapeRegex never contain other unescaped
metacharacters, so this fragment is exactly what the code builds. -/
def parseRegex : List Char → List RItem
  | [] => []
  | c :: rest =>
    if c = '\\' then
      match rest with
      | [] => []
      | d :: rest2 => RItem.lit d :: parseRegex rest2
    else if c = '.' then RItem.dot :: parseRegex rest
    else RItem.lit c :: parseRegex rest

/-- Item-versus-character matching: literals compare case-insensitively
(the i flag), and the wildcard matches anything except a line
terminator. -/
def ritemMatches : RItem → Char → Bool
  | RItem.lit c, d => c.toLower == d.toLower
  | RItem.dot, d =>
    !(d == '\n' || d == '\r' || d == Char.ofNat 0x2028 || d == Char.ofNat 0x2029)

/-- Matching of an item list against a prefix of the text. -/
def rmatchList : List RItem → List Char → Bool
  | [], _ => true
  | _ :: _, [] => false
  | r :: rs, c :: cs => ritemMatches r c && rmatchList rs cs

/-- Matching of an item list at position i of the text. -/
def rmatchAt (pat : List RItem) (hay : List Char) (i : Nat) : Bool :=
  rmatchList pat (hay.drop i)

/-- Case-insensitive literal prefix comparison, the intended meaning of an
escaped keyword pattern. -/
def litPrefixLower : List Char → List Char → Bool
  | [], _ => true
  | _ :: _, [] => false
  | k :: ks, c :: cs => k.toLower == c.toLower && litPrefixLower ks cs

/-- Case-insensitive literal occurrence of kw at position i of hay. -/
def litMatchAt (kw hay : List Char) (i : Nat) : Bool :=
  litPrefixLower kw (hay.drop i)

/-- Number of case-insensitive literal occurrences of kw in hay. -/
def occCount (kw hay : List Char) : Nat :=
  ((List.range (hay.length + 1)).filter (fun i => litMatchAt kw hay i)).length

/-- Pattern the extractor compiles from a keyword (line 67 and the three
RegExp constructions on lines 71, 96 and 130). -/
def patOf (kw : List Char) : List RItem := parseRegex (escapeRegex kw)

/-- Leftmost pattern match in hay at a position in the interval from p of
the given width. -/
def regexFindAux (pat : List RItem) (hay : List Char) : Nat → Nat → Option Nat
  | 0, _ => none
  | n + 1, p =>
    if rmatchAt pat hay p then some p
    else regexFindAux pat hay n (p + 1)

/-- Model of one pattern.exec call with lastIndex p: the leftmost match at
position p or later; positions beyond the end of the text never match. -/
def regexFind (pat : List RItem) (hay : List Char) (p : Nat) : Option Nat :=
  regexFindAux pat hay (hay.length + 1 - p) p

/-- Cursor advance after a match at i: lastIndex becomes the match end,
and the guard on zero-width matches advances one further position (lines
86-89, 111-114, 145-148).  For these patterns the match width is the item
count. -/
def advanceAfter (patLen i : Nat) : Nat :=
  i + patLen + (if patLen = 0 then 1 else 0)

/-- Exec loop of the extractor (the while loops on lines 74, 99 and 133),
collecting match positions.  The fuel argument bounds the number of
iterations; text length plus two is proved sufficient below. -/
def execLoopAux (pat : List RItem) (hay : List Char) : Nat → Nat → List Nat
  | 0, _ => []
  | fuel + 1, p =>
    match regexFind pat hay p with
    | none => []
    | some i => i :: execLoopAux pat hay fuel (advanceAfter pat.length i)

/-- All match positions of the pattern in the text, in exec order. -/
def findAll (pat : List RItem) (hay : List Char) : List Nat :=
  execLoopAux pat hay (hay.length + 2) 0

/-- Comment scan of the serialized markup (the non-greedy comment regex on
line 121 with its exec loop on line 124): repeatedly find the next comment
opener, then the nearest closer after it; the body in between is one
comment, and the cursor resumes after the closer. -/
def extractCommentsAux (hay : List Char) : Nat → Nat → List (List Char)
  | 0, _ => []
  | fuel + 1, p =>
    match exactFindFrom "<!--".toList hay p with
    | none => []
    | some i =>
      match exactFindFrom "-->".toList hay (i + 4) with
      | none => []
      | some j =>
        ((hay.drop (i + 4)).take (j - (i + 4))) ::
          extractCommentsAux hay fuel (j + 3)

/-- All HTML comment bodies of the serialized markup, in document order. -/
def extractComments (hay : List Char) : List (List Char) :=
  extractCommentsAux hay (hay.length + 2) 0

/-- Match zone tag, the matchType field values TEXT, JS and COMMENT. -/
inductive MatchType
  | TEXT
  | JS
  | COMMENT
  deriving DecidableEq

/-- Match record emitted by the extractor.  The shape follows the
ScanMatch objects pushed on lines 79-84, 104-109 and 138-143. -/
structure ScanMatch where
  timestamp : List Char
  archiveUrl : List Char
  matchType : MatchType
  snippet : List Char
  deriving DecidableEq

/-- Cleaned parsed document, the cheerio view the extractor reads after
the cleanup on lines 63-65: the text of the body, the textual bodies of
all script elements in document order, and the re-serialized markup. -/
structure Doc where
  bodyText : List Char
  scripts : List (List Char)
  serialized : List Char
  deriving DecidableEq

/-- Text zone content: body text with whitespace runs collapsed to single
spaces, then trimmed (line 70). -/
def textOf (d : Doc) : List Char := jsTrim (collapseWs d.bodyText)

/-- Archive footer marker that excludes a comment from scanning. -/
def archiveMarker : List Char := "FILE ARCHIVED ON".toList

/-- TEXT zone matches: one match per found position, snippet from the
collapsed text with newlines replaced by spaces (lines 74-90). -/
def textZoneMatches (kw ts url text : List Char) : List ScanMatch :=
  (findAll (patOf kw) text).map fun i =>
    ⟨ts, url, MatchType.TEXT, ellipsisWrap (stripNl (window text kw.length i))⟩

/-- JS zone matches of one script body: snippet with newlines replaced by
spaces and then trimmed (lines 99-115). -/
def jsZoneMatches (kw ts url s : List Char) : List ScanMatch :=
  (findAll (patOf kw) s).map fun i =>
    ⟨ts, url, MatchType.JS, ellipsisWrap (jsTrim (stripNl (window s kw.length i)))⟩

/-- COMMENT zone matches of one comment body: snippet trimmed only (lines
133-149). -/
def commentZoneMatches (kw ts url c : List Char) : List ScanMatch :=
  (findAll (patOf kw) c).map fun i =>
    ⟨ts, url, MatchType.COMMENT, ellipsisWrap (jsTrim (window c kw.length i))⟩

/-- Extractor (extractData, lines 59-153): all TEXT matches over the
collapsed body text, then per script all JS matches (empty script bodies
are skipped by the truthiness test on line 95), then per comment all
COMMENT matches, skipping comments carrying the archive marker. -/
def extractData (d : Doc) (keyword ts archiveUrl : List Char) : List ScanMatch :=
  textZoneMatches keyword ts archiveUrl (textOf d)
  ++ d.scripts.flatMap (fun s =>
      if s.isEmpty then [] else jsZoneMatches keyword ts archiveUrl s)
  ++ (extractComments d.serialized).flatMap (fun c =>
      if containsSub archiveMarker c then [] else commentZoneMatches keyword ts archiveUrl c)

/-- JSON values, the universe of payloads response.json can produce.
Numbers are modelled as integers (the CDX fields in use are strings). -/
inductive JVal
  | jnull
  | jbool (b : Bool)
  | jnum (n : Int)
  | jstr (s : List Char)
  | jarr (xs : List JVal)
  | jobj (fields : List (List Char × JVal))

/-- Runtime value of a destructured binding: a JSON value, or undefined
when the destructured row is shorter than two elements. -/
inductive JSField
  | undef
  | val (v : JVal)

/-- Snapshot record (the Snapshot interface on lines 13-16).  At runtime
the fields hold whatever the row destructuring produced; the TypeScript
string annotation is not enforced. -/
structure Snapshot where
  timestamp : JSField
  original : JSField

/-- Element of a JavaScript array destructuring at the given index. -/
def fieldAt (xs : List JVal) (n : Nat) : JSField :=
  match xs.get? n with
  | some v => JSField.val v
  | none => JSField.undef

/-- Element of a string destructuring at the given index (strings are
iterable character-wise in JavaScript). -/
def charFieldAt (s : List Char) (n : Nat) : JSField :=
  match s.get? n with
  | some c => JSField.val (JVal.jstr [c])
  | none => JSField.undef

/-- Two-element destructuring of one row (line 49): arrays and strings
are iterable and yield their first two elements or undefined; every other
value raises a TypeError, modelled as none. -/
def destructure2 : JVal → Option (JSField × JSField)
  | JVal.jarr xs => some (fieldAt xs 0, fieldAt xs 1)
  | JVal.jstr s => some (charFieldAt s 0, charFieldAt s 1)
  | _ => none

/-- Row mapping of data.slice(1).map (lines 49-52); a throw from any row
destructuring aborts the whole mapping. -/
def rowsToSnapshots : List JVal → Option (List Snapshot)
  | [] => some []
  | r :: rs =>
    match destructure2 r with
    | none => none
    | some (t, o) =>
      match rowsToSnapshots rs with
      | none => none
      | some ss => some (⟨t, o⟩ :: ss)

/-- Outcome of the single CDX index request: the fetch promise rejects
(network failure or the 60 second timeout), or an HTTP response arrives
with its ok flag and a body that either parses as JSON or does not. -/
inductive IndexOutcome
  | netErr
  | httpResp (ok : Bool) (body : Option JVal)

/-- Array test of the Array.isArray guard on line 44. -/
def isJArr : JVal → Bool
  | JVal.jarr _ => true
  | _ => false

/-- Predicate expressing the claimed snapshot-field invariant: the field
holds a non-empty string. -/
def fieldNonEmptyStr : JSField → Bool
  | JSField.val (JVal.jstr (_ :: _)) => true
  | _ => false

/-- Query parameters built for the CDX request (lines 19-30). -/
def cdxParams (domain : List Char) (year : Option (List Char)) (limit : Nat) :
    List (List Char × List Char) :=
  [("url".toList, domain),
   ("output".toList, "json".toList),
   ("fl".toList, "timestamp,original".toList),
   ("filter".toList, "statuscode:200".toList),
   ("limit".toList, (Nat.repr limit).toList)]
  ++ (match year with
      | none => []
      | some y => [("from".toList, y ++ "0101".toList), ("to".toList, y ++ "1231".toList)])

/-- Index client (fetchSnapshots, lines 18-57).  The try block covers the
fetch, the ok test, the JSON parse and the row mapping; any failure is
caught and becomes the empty list.  A header-only or non-array payload
also yields the empty list. -/
def fetchSnapshots (domain : List Char) (year : Option (List Char)) (limit : Nat)
    (outcome : IndexOutcome) : List Snapshot :=
  match outcome with
  | IndexOutcome.netErr => []
  | IndexOutcome.httpResp ok body =>
    if ok = false then []
    else
      match body with
      | none => []
      | some data =>
        match data with
        | JVal.jarr xs =>
          if xs.length ≤ 1 then []
          else
            match rowsToSnapshots (xs.drop 1) with
            | none => []
            | some snaps => snaps
        | _ => []

mutual

/-- Template-literal stringification of a JSON value, as performed on the
snapshot fields by the interpolations on lines 232 and 236. -/
def jvalStr : JVal → List Char
  | JVal.jnull => "null".toList
  | JVal.jbool true => "true".toList
  | JVal.jbool false => "false".toList
  | JVal.jnum n => (toString n).toList
  | JVal.jstr s => s
  | JVal.jarr xs => jarrStr xs
  | JVal.jobj _ => "[object Object]".toList

/-- Array stringification: elements joined with commas, null elements
becoming empty. -/
def jarrStr : List JVal → List Char
  | [] => []
  | [JVal.jnull] => []
  | [v] => jvalStr v
  | JVal.jnull :: rest => ',' :: jarrStr rest
  | v :: rest => jvalStr v ++ ',' :: jarrStr rest

end

/-- Stringification of a destructured field; undefined interpolates as the
literal word undefined. -/
def jsFieldStr : JSField → List Char
  | JSField.undef => "undefined".toList
  | JSField.val v => jvalStr v

/-- Replay URL construction of line 232. -/
def archiveUrlOf (ts orig : List Char) : List Char :=
  "https://web.archive.org/web/".toList ++ ts ++ "/".toList ++ orig

/-- Outbound server-sent event, the ScanProgress union written by
sendProgress: a progress message with optional counters, a match, a
terminal completion message, or a terminal error. -/
inductive ScanProgress
  | progress (message : List Char) (currentSnapshot totalSnapshots : Option Nat)
  | matched (m : ScanMatch)
  | complete (message : List Char)
  | error (e : List Char)
  deriving DecidableEq

/-- Message of line 200. -/
def contactingMsg (domain : List Char) : List Char :=
  "Contacting Wayback Machine for: ".toList ++ domain ++ "...".toList

/-- Message of line 216. -/
def analyzingMsg (n : Nat) (kw : List Char) : List Char :=
  "Analyzing ".toList ++ (Nat.repr n).toList ++ " snapshots for ".toList
    ++ [apos] ++ kw ++ [apos] ++ "...".toList

/-- Message of line 236. -/
def scanningMsg (ts : List Char) : List Char :=
  "Scanning snapshot: ".toList ++ ts ++ "...".toList

/-- Message of line 208. -/
def noSnapshotsMsg : List Char := "No snapshots found for this criteria.".toList

/-- Message of line 275. -/
def scanCompleteMsg : List Char := "Scan complete.".toList

/-- Message of line 280. -/
def noMatchesMsg : List Char := "Scan finished. No matches found.".toList

/-- Connection state read at the top of iteration i.  The clientConnected
flag starts true and is only ever set to false, so the runs of the flag
are described by an optional cutoff: the first iteration index at which
the flag reads false, or none when the caller never disconnects. -/
def connectedAt : Option Nat → Nat → Bool
  | none, _ => true
  | some k, i => decide (i < k)

/-- Per-snapshot loop of the orchestrator (lines 224-269): at the top of
each iteration the connection flag is checked and a disconnected caller
ends the stream with no further events; otherwise a scanning progress
event is emitted, the page fetch outcome is consulted (none covers a
rejected fetch, a timeout and a non-ok status, all silently skipped), and
on success every extracted match is emitted immediately.  After the last
snapshot the terminal completion event reflects whether any match was
found (lines 271-282). -/
def scanLoop (kw : List Char) (fetchPage : Nat → Option Doc) (cutoff : Option Nat)
    (total : Nat) : List Snapshot → Nat → Bool → List ScanProgress
  | [], _, foundAny =>
    [ScanProgress.complete (if foundAny then scanCompleteMsg else noMatchesMsg)]
  | snap :: rest, i, foundAny =>
    if connectedAt cutoff i = false then []
    else
      ScanProgress.progress (scanningMsg (jsFieldStr snap.timestamp)) (some (i + 1)) (some total) ::
      (match fetchPage i with
       | none => scanLoop kw fetchPage cutoff total rest (i + 1) foundAny
       | some doc =>
         let ts := jsFieldStr snap.timestamp
         let ms := extractData doc kw ts (archiveUrlOf ts (jsFieldStr snap.original))
         ms.map ScanProgress.matched ++
           scanLoop kw fetchPage cutoff total rest (i + 1) (foundAny || !ms.isEmpty))

/-- Event stream of one scan (lines 196-282), given the snapshot list the
index client returned, the per-snapshot fetch outcomes, and the
disconnection cutoff: the contacting progress event, then either the
empty-index completion or the analyzing progress event followed by the
per-snapshot loop. -/
def scanEvents (domain kw : List Char) (snaps : List Snapshot)
    (fetchPage : Nat → Option Doc) (cutoff : Option Nat) : List ScanProgress :=
  ScanProgress.progress (contactingMsg domain) none none ::
  (if snaps.length = 0 then [ScanProgress.complete noSnapshotsMsg]
   else
     ScanProgress.progress (analyzingMsg snaps.length kw) (some 0) (some snaps.length) ::
     scanLoop kw fetchPage cutoff snaps.length snaps 0 false)

/-- Projection selecting match events from the stream. -/
def getMatch : ScanProgress → Option ScanMatch
  | ScanProgress.matched m => some m
  | _ => none

/-- Events of one iteration for snapshot snap at index i: its scanning
progress event followed by its match events, used to characterize the
stream of a scan cut short by a disconnection. -/
def iterEvents (kw : List Char) (fetchPage : Nat → Option Doc) (total : Nat)
    (snap : Snapshot) (i : Nat) : List ScanProgress :=
  ScanProgress.progress (scanningMsg (jsFieldStr snap.timestamp)) (some (i + 1)) (some total) ::
  (match fetchPage i with
   | none => []
   | some doc =>
     let ts := jsFieldStr snap.timestamp
     (extractData doc kw ts (archiveUrlOf ts (jsFieldStr snap.original))).map ScanProgress.matched)

/-- Concatenated iteration events of the first k snapshots, starting at
index i. -/
def cutEvents (kw : List Char) (fetchPage : Nat → Option Doc) (total : Nat) :
    List Snapshot → Nat → Nat → List ScanProgress
  | _, _, 0 => []
  | [], _, _ + 1 => []
  | snap :: rest, i, k + 1 =>
    iterEvents kw fetchPage total snap i ++ cutEvents kw fetchPage total rest (i + 1) k

/-! Search-loop lemmas: soundness, minimality, completeness and fuel
sufficiency of the exec model. -/

theorem regexFindAux_spec {pat : List RItem} {hay : List Char} :
    ∀ {n p i : Nat}, regexFindAux pat hay n p = some i →
      p ≤ i ∧ i < p + n ∧ rmatchAt pat hay i = true := by
  intro n
  induction n with
  | zero => intro p i h; simp [regexFindAux] at h
  | succ n ih =>
    intro p i h
    by_cases hm : rmatchAt pat hay p = true
    · simp [regexFindAux, hm] at h
      subst h
      exact ⟨Nat.le_refl _, by omega, hm⟩
    · simp [regexFindAux, hm] at h
      rcases ih h with ⟨h1, h2, h3⟩
      exact ⟨by omega, by omega, h3⟩

theorem regexFindAux_isSome {pat : List RItem} {hay : List Char} :
    ∀ {n p j : Nat}, p ≤ j → j < p + n → rmatchAt pat hay j = true →
      (regexFindAux pat hay n p).isSome = true := by
  intro n
  induction n with
  | zero => intro p j h1 h2 _; omega
  | succ n ih =>
    intro p j h1 h2 hm
    by_cases hp : rmatchAt pat hay p = true
    · simp [regexFindAux, hp]
    · have hne : j ≠ p := by
        intro e
        rw [e] at hm
        exact hp hm
      simp [regexFindAux, hp]
      exact ih (by omega) (by omega) hm

theorem regexFind_spec {pat : List RItem} {hay : List Char} {p i : Nat}
    (h : regexFind pat hay p = some i) :
    p ≤ i ∧ i ≤ hay.length ∧ rmatchAt pat hay i = true := by
  rcases le_or_lt p hay.length with hp | hp
  · rcases regexFindAux_spec h with ⟨h1, h2, h3⟩
    exact ⟨h1, by omega, h3⟩
  · exfalso
    unfold regexFind at h
    rw [show hay.length + 1 - p = 0 by omega] at h
    simp [regexFindAux] at h

theorem regexFind_isSome {pat : List RItem} {hay : List Char} {p j : Nat}
    (h1 : p ≤ j) (h2 : j ≤ hay.length) (hm : rmatchAt pat hay j = true) :
    (regexFind pat hay p).isSome = true :=
  regexFindAux_isSome h1 (by omega) hm

theorem lt_advanceAfter (patLen i : Nat) : i < advanceAfter patLen i := by
  unfold advanceAfter
  split <;> omega

theorem execLoopAux_ge {pat : List RItem} {hay : List Char} :
    ∀ {fuel p j : Nat}, j ∈ execLoopAux pat hay fuel p → p ≤ j := by
  intro fuel
  induction fuel with
  | zero => intro p j h; simp [execLoopAux] at h
  | succ n ih =>
    intro p j h
    cases hf : regexFind pat hay p with
    | none => simp [execLoopAux, hf] at h
    | some i =>
      simp [execLoopAux, hf] at h
      rcases h with rfl | h
      · exact (regexFind_spec hf).1
      · have := ih h
        have := (regexFind_spec hf).1
        have := lt_advanceAfter pat.length i
        omega

theorem execLoopAux_sound {pat : List RItem} {hay : List Char} :
    ∀ {fuel p j : Nat}, j ∈ execLoopAux pat hay fuel p →
      rmatchAt pat hay j = true ∧ j ≤ hay.length := by
  intro fuel
  induction fuel with
  | zero => intro p j h; simp [execLoopAux] at h
  | succ n ih =>
    intro p j h
    cases hf : regexFind pat hay p with
    | none => simp [execLoopAux, hf] at h
    | some i =>
      simp [execLoopAux, hf] at h
      rcases h with rfl | h
      · exact ⟨(regexFind_spec hf).2.2, (regexFind_spec hf).2.1⟩
      · exact ih h

theorem execLoopAux_chain {pat : List RItem} {hay : List Char} :
    ∀ {fuel p : Nat}, List.Chain' (· < ·) (execLoopAux pat hay fuel p) := by
  intro fuel
  induction fuel with
  | zero => intro p; simp [execLoopAux]
  | succ n ih =>
    intro p
    cases hf : regexFind pat hay p with
    | none => simp [execLoopAux, hf]
    | some i =>
      simp only [execLoopAux, hf]
      rw [List.chain'_cons']
      refine ⟨?_, ih⟩
      intro b hb
      have hmem : b ∈ execLoopAux pat hay n (advanceAfter pat.length i) :=
        List.mem_of_mem_head? hb
      have := execLoopAux_ge hmem
      have := lt_advanceAfter pat.length i
      omega

theorem execLoopAux_stable {pat : List RItem} {hay : List Char} :
    ∀ {n₁ n₂ p : Nat}, hay.length + 1 - p < n₁ → hay.length + 1 - p < n₂ →
      execLoopAux pat hay n₁ p = execLoopAux pat hay n₂ p := by
  intro n₁
  induction n₁ with
  | zero => intro n₂ p h1 _; omega
  | succ a ih =>
    intro n₂ p h1 h2
    cases n₂ with
    | zero => omega
    | succ b =>
      cases hf : regexFind pat hay p with
      | none => simp [execLoopAux, hf]
      | some i =>
        simp only [execLoopAux, hf]
        rcases regexFind_spec hf with ⟨hp, hlen, _⟩
        have hadv := lt_advanceAfter pat.length i
        congr 1
        exact ih (by omega) (by omega)

/-! Bridge lemmas: the pattern compiled from an escaped keyword is the
literal item list, and matches exactly the case-insensitive literal
occurrences of the keyword. -/

theorem parseRegex_escapeRegex : ∀ kw : List Char,
    parseRegex (escapeRegex kw) = kw.map RItem.lit := by
  intro kw
  induction kw with
  | nil => rfl
  | cons c rest ih =>
    by_cases h : isMeta c = true
    · simp [escapeRegex, h, parseRegex, ih]
    · have hb : c ≠ '\\' := by rintro rfl; exact h (by decide)
      have hd : c ≠ '.' := by rintro rfl; exact h (by decide)
      have h1 : escapeRegex (c :: rest) = c :: escapeRegex rest := by
        simp [escapeRegex, h]
      rw [h1, parseRegex.eq_def]
      simp [hb, hd, ih]

theorem rmatchList_map_lit : ∀ (kw cs : List Char),
    rmatchList (kw.map RItem.lit) cs = litPrefixLower kw cs := by
  intro kw
  induction kw with
  | nil => intro cs; rfl
  | cons k ks ih =>
    intro cs
    cases cs with
    | nil => rfl
    | cons c cs' => simp [rmatchList, litPrefixLower, ritemMatches, ih]

theorem rmatchAt_patOf (kw hay : List Char) (i : Nat) :
    rmatchAt (patOf kw) hay i = litMatchAt kw hay i := by
  unfold rmatchAt litMatchAt patOf
  rw [parseRegex_escapeRegex, rmatchList_map_lit]

theorem patOf_length (kw : List Char) : (patOf kw).length = kw.length := by
  unfold patOf
  rw [parseRegex_escapeRegex, List.length_map]

/-! Occurrence counting: findAll visits exactly the occurrences when there
is at most one, and its positions are always strictly increasing and
genuine occurrences. -/

theorem findAll_sound {kw hay : List Char} {j : Nat}
    (h : j ∈ findAll (patOf kw) hay) :
    litMatchAt kw hay j = true ∧ j ≤ hay.length := by
  rcases execLoopAux_sound h with ⟨h1, h2⟩
  rw [rmatchAt_patOf] at h1
  exact ⟨h1, h2⟩

theorem findAll_chain (pat : List RItem) (hay : List Char) :
    List.Chain' (· < ·) (findAll pat hay) :=
  execLoopAux_chain

theorem findAll_nodup (pat : List RItem) (hay : List Char) :
    (findAll pat hay).Nodup := by
  have h := findAll_chain pat hay
  rw [List.chain'_iff_pairwise] at h
  exact h.imp Nat.ne_of_lt

theorem findAll_ne_nil {pat : List RItem} {hay : List Char} {j : Nat}
    (hm : rmatchAt pat hay j = true) (hj : j ≤ hay.length) :
    findAll pat hay ≠ [] := by
  have h := regexFind_isSome (Nat.zero_le j) hj hm
  cases hf : regexFind pat hay 0 with
  | none => rw [hf] at h; simp at h
  | some i => simp [findAll, execLoopAux, hf]

theorem length_le_one_of_nodup_const {l : List Nat} {j : Nat}
    (hn : l.Nodup) (h : ∀ x ∈ l, x = j) : l.length ≤ 1 := by
  cases l with
  | nil => simp
  | cons a as =>
    cases as with
    | nil => simp
    | cons b bs =>
      exfalso
      have ha : a = j := h a (by simp)
      have hb : b = j := h b (by simp)
      rw [List.nodup_cons] at hn
      exact hn.1 (by simp [ha, hb])

theorem occCount_nil {kw : List Char} (hk : kw ≠ []) : occCount kw [] = 0 := by
  cases kw with
  | nil => exact absurd rfl hk
  | cons k ks => rfl

theorem findAll_length_eq_occCount {kw hay : List Char} (hk : kw ≠ [])
    (hocc : occCount kw hay ≤ 1) :
    (findAll (patOf kw) hay).length = occCount kw hay := by
  have hmemL : ∀ j, (j ∈ (List.range (hay.length + 1)).filter (fun i => litMatchAt kw hay i)) ↔
      (j ≤ hay.length ∧ litMatchAt kw hay j = true) := by
    intro j
    rw [List.mem_filter, List.mem_range]
    constructor
    · rintro ⟨h1, h2⟩
      exact ⟨by omega, h2⟩
    · rintro ⟨h1, h2⟩
      exact ⟨by omega, h2⟩
  have hsub : ∀ j ∈ findAll (patOf kw) hay,
      j ∈ (List.range (hay.length + 1)).filter (fun i => litMatchAt kw hay i) := by
    intro j hj
    rcases findAll_sound hj with ⟨h1, h2⟩
    exact (hmemL j).mpr ⟨h2, h1⟩
  cases hL : (List.range (hay.length + 1)).filter (fun i => litMatchAt kw hay i) with
  | nil =>
    have hFA : findAll (patOf kw) hay = [] := by
      cases hFA : findAll (patOf kw) hay with
      | nil => rfl
      | cons x xs =>
        exfalso
        have hx : x ∈ findAll (patOf kw) hay := by
          rw [hFA]
          exact List.mem_cons_self x xs
        have hx2 := hsub x hx
        rw [hL] at hx2
        exact absurd hx2 (List.not_mem_nil x)
    rw [hFA]
    unfold occCount
    rw [hL]
  | cons j js =>
    cases js with
    | nil =>
      have hjocc : j ≤ hay.length ∧ litMatchAt kw hay j = true := by
        apply (hmemL j).mp
        rw [hL]
        exact List.mem_cons_self j []
      have hne : findAll (patOf kw) hay ≠ [] := by
        apply findAll_ne_nil (j := j)
        · rw [rmatchAt_patOf]
          exact hjocc.2
        · exact hjocc.1
      have hall : ∀ x ∈ findAll (patOf kw) hay, x = j := by
        intro x hx
        have hx2 := hsub x hx
        rw [hL] at hx2
        simpa using hx2
      have hle := length_le_one_of_nodup_const (findAll_nodup _ _) hall
      have hge : 1 ≤ (findAll (patOf kw) hay).length := by
        cases hFA : findAll (patOf kw) hay with
        | nil => exact absurd hFA hne
        | cons a as => simp
      unfold occCount
      rw [hL]
      simp only [List.length_cons, List.length_nil]
      omega
    | cons j' js' =>
      exfalso
      unfold occCount at hocc
      rw [hL] at hocc
      simp at hocc

/-! List helpers shared by the claim proofs. -/

theorem map_const_eq_replicate {α β : Type} (l : List α) (b : β) :
    (l.map fun _ => b) = List.replicate l.length b := by
  induction l with
  | nil => rfl
  | cons a as ih => simp [List.replicate_succ, ih]

theorem map_flatMap_out {α β γ : Type} (l : List α) (f : α → List β) (g : β → γ) :
    (l.flatMap f).map g = l.flatMap fun a => (f a).map g := by
  induction l with
  | nil => rfl
  | cons a as ih => simp [List.flatMap_cons, List.map_append, ih]

theorem flatMap_replicate_sum {α β : Type} (l : List α) (f : α → Nat) (b : β) :
    (l.flatMap fun a => List.replicate (f a) b) =
      List.replicate ((l.map f).sum) b := by
  induction l with
  | nil => rfl
  | cons a as ih =>
    rw [List.flatMap_cons, ih, List.map_cons, List.sum_cons, List.replicate_add]

theorem le_sum_of_mem_nat {l : List Nat} {x : Nat} (h : x ∈ l) : x ≤ l.sum := by
  induction l with
  | nil => simp at h
  | cons a as ih =>
    rcases List.mem_cons.mp h with rfl | h2
    · simp
    · have := ih h2
      simp
      omega

theorem flatMap_if_filter {α β : Type} (l : List α) (p : α → Bool) (g : α → List β) :
    (l.flatMap fun c => if p c then [] else g c) =
      (l.filter fun c => !p c).flatMap g := by
  induction l with
  | nil => rfl
  | cons a as ih =>
    by_cases h : p a = true
    · simp [List.flatMap_cons, List.filter_cons, h, ih]
    · simp only [Bool.not_eq_true] at h
      simp [List.flatMap_cons, List.filter_cons, h, ih]

theorem filterMap_getMatch_map (l : List ScanMatch) :
    (l.map ScanProgress.matched).filterMap getMatch = l := by
  induction l with
  | nil => rfl
  | cons a as ih => simp [List.filterMap_cons, getMatch, ih]

/-! Zone structure of the extractor output. -/

theorem textZoneMatches_map_type (kw ts url z : List Char) :
    (textZoneMatches kw ts url z).map ScanMatch.matchType =
      List.replicate (findAll (patOf kw) z).length MatchType.TEXT := by
  unfold textZoneMatches
  rw [List.map_map]
  exact map_const_eq_replicate (findAll (patOf kw) z) MatchType.TEXT

theorem jsZoneMatches_map_type (kw ts url z : List Char) :
    (jsZoneMatches kw ts url z).map ScanMatch.matchType =
      List.replicate (findAll (patOf kw) z).length MatchType.JS := by
  unfold jsZoneMatches
  rw [List.map_map]
  exact map_const_eq_replicate (findAll (patOf kw) z) MatchType.JS

theorem commentZoneMatches_map_type (kw ts url z : List Char) :
    (commentZoneMatches kw ts url z).map ScanMatch.matchType =
      List.replicate (findAll (patOf kw) z).length MatchType.COMMENT := by
  unfold commentZoneMatches
  rw [List.map_map]
  exact map_const_eq_replicate (findAll (patOf kw) z) MatchType.COMMENT

theorem extractData_map_matchType (d : Doc) (kw ts url : List Char) :
    (extractData d kw ts url).map ScanMatch.matchType =
      List.replicate (findAll (patOf kw) (textOf d)).length MatchType.TEXT
      ++ List.replicate ((d.scripts.map fun s =>
            if s.isEmpty then 0 else (findAll (patOf kw) s).length).sum) MatchType.JS
      ++ List.replicate (((extractComments d.serialized).map fun c =>
            if containsSub archiveMarker c then 0 else (findAll (patOf kw) c).length).sum)
          MatchType.COMMENT := by
  unfold extractData
  rw [List.map_append, List.map_append]
  rw [textZoneMatches_map_type]
  rw [map_flatMap_out, map_flatMap_out]
  have hjs : (fun s => (if s.isEmpty then ([] : List ScanMatch)
        else jsZoneMatches kw ts url s).map ScanMatch.matchType) =
      (fun s => List.replicate (if s.isEmpty then 0 else (findAll (patOf kw) s).length)
        MatchType.JS) := by
    funext s
    by_cases h : s.isEmpty = true
    · simp [h]
    · simp only [Bool.not_eq_true] at h
      simp [h, jsZoneMatches_map_type]
  have hcm : (fun c => (if containsSub archiveMarker c then ([] : List ScanMatch)
        else commentZoneMatches kw ts url c).map ScanMatch.matchType) =
      (fun c => List.replicate
        (if containsSub archiveMarker c then 0 else (findAll (patOf kw) c).length)
        MatchType.COMMENT) := by
    funext c
    by_cases h : containsSub archiveMarker c = true
    · simp [h]
    · simp only [Bool.not_eq_true] at h
      simp [h, commentZoneMatches_map_type]
  rw [hjs, hcm, flatMap_replicate_sum, flatMap_replicate_sum]

theorem extractData_fields {d : Doc} {kw ts url : List Char} :
    ∀ m ∈ extractData d kw ts url, m.timestamp = ts ∧ m.archiveUrl = url := by
  intro m hm
  unfold extractData at hm
  simp only [List.mem_append, List.mem_flatMap] at hm
  rcases hm with (h | ⟨s, _, h⟩) | ⟨c, _, h⟩
  · unfold textZoneMatches at h
    rcases List.mem_map.mp h with ⟨i, _, rfl⟩
    exact ⟨rfl, rfl⟩
  · by_cases he : s.isEmpty = true
    · simp [he] at h
    · simp only [Bool.not_eq_true] at he
      simp only [he, if_false, Bool.false_eq_true] at h
      unfold jsZoneMatches at h
      rcases List.mem_map.mp h with ⟨i, _, rfl⟩
      exact ⟨rfl, rfl⟩
  · by_cases he : containsSub archiveMarker c = true
    · simp [he] at h
    · simp only [Bool.not_eq_true] at he
      simp only [he, if_false, Bool.false_eq_true] at h
      unfold commentZoneMatches at h
      rcases List.mem_map.mp h with ⟨i, _, rfl⟩
      exact ⟨rfl, rfl⟩

/-! Position shift lemmas: searching an appended text beyond the first
part behaves like searching the second part. -/

theorem drop_append_len {α : Type} : ∀ (b t : List α) (j : Nat),
    (b ++ t).drop (b.length + j) = t.drop j := by
  intro b
  induction b with
  | nil => intro t j; simp
  | cons x bs ih =>
    intro t j
    simp only [List.cons_append, List.length_cons]
    rw [show bs.length + 1 + j = (bs.length + j) + 1 by omega]
    rw [List.drop_succ_cons]
    exact ih t j

theorem rmatchAt_shift (pat : List RItem) (b t : List Char) (j : Nat) :
    rmatchAt pat (b ++ t) (b.length + j) = rmatchAt pat t j := by
  unfold rmatchAt
  rw [drop_append_len]

theorem regexFindAux_shift {pat : List RItem} {b t : List Char} :
    ∀ (n d : Nat), regexFindAux pat (b ++ t) n (b.length + d) =
      (regexFindAux pat t n d).map (b.length + ·) := by
  intro n
  induction n with
  | zero => intro d; rfl
  | succ n ih =>
    intro d
    simp only [regexFindAux]
    rw [rmatchAt_shift]
    by_cases h : rmatchAt pat t d = true
    · simp [h]
    · simp only [h, if_false, Bool.false_eq_true]
      rw [show b.length + d + 1 = b.length + (d + 1) by omega]
      exact ih (d + 1)

theorem regexFind_shift (pat : List RItem) (b t : List Char) (d : Nat) :
    regexFind pat (b ++ t) (b.length + d) = (regexFind pat t d).map (b.length + ·) := by
  unfold regexFind
  rw [show (b ++ t).length + 1 - (b.length + d) = t.length + 1 - d by
    rw [List.length_append]; omega]
  exact regexFindAux_shift _ _

theorem advanceAfter_shift (patLen bl i : Nat) :
    advanceAfter patLen (bl + i) = bl + advanceAfter patLen i := by
  unfold advanceAfter
  split <;> omega

theorem execLoopAux_shift {pat : List RItem} {b t : List Char} :
    ∀ (n d : Nat), execLoopAux pat (b ++ t) n (b.length + d) =
      (execLoopAux pat t n d).map (b.length + ·) := by
  intro n
  induction n with
  | zero => intro d; rfl
  | succ n ih =>
    intro d
    simp only [execLoopAux]
    rw [regexFind_shift]
    cases hf : regexFind pat t d with
    | none => rfl
    | some i =>
      simp only [Option.map_some']
      rw [advanceAfter_shift, ih (advanceAfter pat.length i)]
      simp

theorem findAll_nil_of_ne {kw : List Char} (hk : kw ≠ []) :
    findAll (patOf kw) [] = [] := by
  have hm : rmatchAt (patOf kw) [] 0 = false := by
    rw [rmatchAt_patOf]
    cases kw with
    | nil => exact absurd rfl hk
    | cons k ks => rfl
  simp [findAll, execLoopAux, regexFind, regexFindAux, hm]

theorem litPrefixLower_of_lower_eq : ∀ {kw b t : List Char},
    b.map Char.toLower = kw.map Char.toLower → litPrefixLower kw (b ++ t) = true := by
  intro kw
  induction kw with
  | nil => intro b t _; rfl
  | cons k ks ih =>
    intro b t hb
    cases b with
    | nil => simp at hb
    | cons c cs =>
      rw [List.map_cons, List.map_cons] at hb
      injection hb with h1 h2
      simp [litPrefixLower, h1, ih h2]

theorem findAll_join_blocks : ∀ (kw : List Char) (blocks : List (List Char)),
    kw ≠ [] → (∀ b ∈ blocks, b.map Char.toLower = kw.map Char.toLower) →
    findAll (patOf kw) blocks.join = (List.range blocks.length).map (· * kw.length) := by
  intro kw blocks
  induction blocks with
  | nil =>
    intro hk _
    simpa using findAll_nil_of_ne hk
  | cons b bs ih =>
    intro hk hbl
    have hb : b.map Char.toLower = kw.map Char.toLower := hbl b (by simp)
    have hbs : ∀ x ∈ bs, x.map Char.toLower = kw.map Char.toLower := by
      intro x hx
      exact hbl x (by simp [hx])
    have hlen : b.length = kw.length := by
      have h := congrArg List.length hb
      simpa using h
    have hkl : kw.length ≠ 0 := by
      cases kw with
      | nil => exact absurd rfl hk
      | cons k ks => simp
    have hjoin : (b :: bs).join = b ++ bs.join := by simp
    rw [hjoin]
    have hm0 : rmatchAt (patOf kw) (b ++ bs.join) 0 = true := by
      rw [rmatchAt_patOf]
      unfold litMatchAt
      rw [List.drop_zero]
      exact litPrefixLower_of_lower_eq hb
    have hfind : regexFind (patOf kw) (b ++ bs.join) 0 = some 0 := by
      unfold regexFind
      rw [Nat.sub_zero]
      cases hn : (b ++ bs.join).length + 1 with
      | zero => omega
      | succ n =>
        simp [regexFindAux, hm0]
    have hadv : advanceAfter (patOf kw).length 0 = b.length := by
      rw [patOf_length]
      unfold advanceAfter
      rw [if_neg hkl]
      omega
    have hfuel1 : bs.join.length + 1 - 0 < (b ++ bs.join).length + 1 := by
      rw [List.length_append]
      omega
    have hfuel2 : bs.join.length + 1 - 0 < bs.join.length + 2 := by omega
    calc findAll (patOf kw) (b ++ bs.join)
        = execLoopAux (patOf kw) (b ++ bs.join) ((b ++ bs.join).length + 2) 0 := rfl
      _ = 0 :: execLoopAux (patOf kw) (b ++ bs.join) ((b ++ bs.join).length + 1)
            (advanceAfter (patOf kw).length 0) := by
          simp only [execLoopAux, hfind]
      _ = 0 :: execLoopAux (patOf kw) (b ++ bs.join) ((b ++ bs.join).length + 1)
            (b.length + 0) := by simp only [Nat.add_zero, hadv]
      _ = 0 :: (execLoopAux (patOf kw) bs.join ((b ++ bs.join).length + 1) 0).map
            (b.length + ·) := by rw [execLoopAux_shift]
      _ = 0 :: (execLoopAux (patOf kw) bs.join (bs.join.length + 2) 0).map
            (b.length + ·) := by
          rw [execLoopAux_stable hfuel1 hfuel2]
      _ = 0 :: ((List.range bs.length).map (· * kw.length)).map (b.length + ·) := by
          rw [show execLoopAux (patOf kw) bs.join (bs.join.length + 2) 0
                = findAll (patOf kw) bs.join from rfl]
          rw [ih hk hbs]
      _ = (List.range (bs.length + 1)).map (· * kw.length) := by
          rw [List.range_succ_eq_map]
          rw [List.map_cons, List.map_map, List.map_map]
          have hfun : ((fun i => b.length + i) ∘ fun i => i * kw.length)
              = ((fun i => i * kw.length) ∘ Nat.succ) := by
            funext j
            simp only [Function.comp_apply, Nat.succ_mul]
            omega
          rw [hfun]
          simp
      _ = (List.range (b :: bs).length).map (· * kw.length) := by simp

/-! Orchestrator lemmas: a disconnection cutoff truncates the loop to the
iteration events of the snapshots before it, and such a truncated stream
carries no completion event. -/

theorem scanLoop_cut {kw : List Char} {f : Nat → Option Doc} {total : Nat} :
    ∀ (snaps : List Snapshot) (i k : Nat) (found : Bool), k < snaps.length →
      scanLoop kw f (some (i + k)) total snaps i found =
        cutEvents kw f total snaps i k := by
  intro snaps
  induction snaps with
  | nil => intro i k found h; simp at h
  | cons snap rest ih =>
    intro i k found h
    cases k with
    | zero =>
      have hc : connectedAt (some i) i = false := by
        simp [connectedAt]
      simp [scanLoop, hc, cutEvents]
    | succ k' =>
      have hc : connectedAt (some (i + (k' + 1))) i = true := by
        simp only [connectedAt, decide_eq_true_eq]
        omega
      have hk' : k' < rest.length := by
        simp at h
        omega
      have harith : i + (k' + 1) = (i + 1) + k' := by omega
      cases hf : f i with
      | none =>
        simp only [scanLoop, hc, hf, Bool.true_eq_false, if_false, cutEvents,
          iterEvents, List.cons_append, List.nil_append]
        rw [harith, ih (i + 1) k' found hk']
      | some doc =>
        simp only [scanLoop, hc, hf, Bool.true_eq_false, if_false, cutEvents,
          iterEvents, List.cons_append]
        rw [harith, ih (i + 1) k' _ hk']

theorem complete_not_mem_cutEvents {kw : List Char} {f : Nat → Option Doc}
    {total : Nat} : ∀ (snaps : List Snapshot) (i k : Nat) (m : List Char),
    ScanProgress.complete m ∉ cutEvents kw f total snaps i k := by
  intro snaps
  induction snaps with
  | nil =>
    intro i k m
    cases k <;> simp [cutEvents]
  | cons snap rest ih =>
    intro i k m
    cases k with
    | zero => simp [cutEvents]
    | succ k' =>
      intro h
      simp only [cutEvents, List.mem_append] at h
      rcases h with h1 | h1
      · unfold iterEvents at h1
        cases hf : f i with
        | none =>
          rw [hf] at h1
          simp at h1
        | some doc =>
          rw [hf] at h1
          simp at h1
      · exact ih (i + 1) k' m h1

theorem sum_map_if_filter {α : Type} (l : List α) (p : α → Bool) (f : α → Nat) :
    (l.map fun c => if p c then 0 else f c).sum =
      ((l.filter fun c => !p c).map f).sum := by
  induction l with
  | nil => rfl
  | cons a as ih =>
    by_cases h : p a = true
    · simp [List.filter_cons, h, ih]
    · simp only [Bool.not_eq_true] at h
      simp [List.filter_cons, h, ih]

theorem mem_textZone_type {kw ts url z : List Char} {m : ScanMatch}
    (h : m ∈ textZoneMatches kw ts url z) : m.matchType = MatchType.TEXT := by
  unfold textZoneMatches at h
  rcases List.mem_map.mp h with ⟨i, _, rfl⟩
  rfl

theorem mem_jsZone_type {kw ts url z : List Char} {m : ScanMatch}
    (h : m ∈ jsZoneMatches kw ts url z) : m.matchType = MatchType.JS := by
  unfold jsZoneMatches at h
  rcases List.mem_map.mp h with ⟨i, _, rfl⟩
  rfl

theorem mem_commentZone_type {kw ts url z : List Char} {m : ScanMatch}
    (h : m ∈ commentZoneMatches kw ts url z) : m.matchType = MatchType.COMMENT := by
  unfold commentZoneMatches at h
  rcases List.mem_map.mp h with ⟨i, _, rfl⟩
  rfl

/-- Claim C8: for every keyword containing regex metacharacters, extraction
treats the keyword as literal text in all three zones.  The escaped pattern
parses to the literal item list, so matching the compiled pattern anywhere
coincides with a case-insensitive literal occurrence of the keyword; in
particular the keyword a.b does not match axb but does match A.B. -/
theorem escape_literal_matching :
    (∀ kw : List Char, parseRegex (escapeRegex kw) = kw.map RItem.lit) ∧
    (∀ (kw hay : List Char) (i : Nat),
      rmatchAt (patOf kw) hay i = litMatchAt kw hay i) ∧
    findAll (patOf "a.b".toList) "axb".toList = [] ∧
    findAll (patOf "a.b".toList) "A.B".toList = [0] := by
  refine ⟨parseRegex_escapeRegex, rmatchAt_patOf, by decide, by decide⟩

/-- Claim C5: the extractor output is ordered by zone, all TEXT matches
first, then all JS matches, then all COMMENT matches; within any single
searched text the match positions produced by the exec loop are strictly
increasing, so in-zone order is position order (for JS and COMMENT zones,
script order and comment order are the traversal order of the
concatenation). -/
theorem extractData_zone_order :
    ∀ (d : Doc) (kw ts url : List Char),
      (∃ a b c : Nat,
        (extractData d kw ts url).map ScanMatch.matchType =
          List.replicate a MatchType.TEXT ++ List.replicate b MatchType.JS
            ++ List.replicate c MatchType.COMMENT) ∧
      (∀ (pat : List RItem) (hay : List Char),
        List.Chain' (· < ·) (findAll pat hay)) := by
  intro d kw ts url
  exact ⟨⟨_, _, _, extractData_map_matchType d kw ts url⟩,
    fun pat hay => findAll_chain pat hay⟩

/-- Claim C10: no COMMENT match is ever produced from a comment whose body
contains the marker FILE ARCHIVED ON: the COMMENT matches of any
extraction are exactly those arising from the comments without the marker,
and concretely a document whose only comment carries the marker yields no
match at all even though the keyword occurs inside it. -/
theorem extract_skips_archive_comments :
    (∀ (d : Doc) (kw ts url : List Char),
      (extractData d kw ts url).filter
          (fun m => decide (m.matchType = MatchType.COMMENT)) =
        ((extractComments d.serialized).filter
            (fun c => !containsSub archiveMarker c)).flatMap
          (commentZoneMatches kw ts url)) ∧
    extractData ⟨[], [], "<!--FILE ARCHIVED ON kw-->".toList⟩ "kw".toList
      "t".toList "u".toList = [] := by
  constructor
  · intro d kw ts url
    unfold extractData
    rw [List.filter_append, List.filter_append]
    have h1 : (textZoneMatches kw ts url (textOf d)).filter
        (fun m => decide (m.matchType = MatchType.COMMENT)) = [] := by
      rw [List.filter_eq_nil_iff]
      intro a ha
      simp [mem_textZone_type ha]
    have h2 : ((d.scripts.flatMap fun s =>
        if s.isEmpty then [] else jsZoneMatches kw ts url s).filter
        (fun m => decide (m.matchType = MatchType.COMMENT))) = [] := by
      rw [List.filter_eq_nil_iff]
      intro a ha
      rcases List.mem_flatMap.mp ha with ⟨s, _, hmem⟩
      by_cases he : s.isEmpty = true
      · simp [he] at hmem
      · simp only [Bool.not_eq_true] at he
        simp only [he, Bool.false_eq_true, if_false] at hmem
        simp [mem_jsZone_type hmem]
    have h3 : (((extractComments d.serialized).flatMap fun c =>
        if containsSub archiveMarker c then [] else commentZoneMatches kw ts url c).filter
        (fun m => decide (m.matchType = MatchType.COMMENT))) =
        ((extractComments d.serialized).flatMap fun c =>
          if containsSub archiveMarker c then [] else commentZoneMatches kw ts url c) := by
      rw [List.filter_eq_self]
      intro a ha
      rcases List.mem_flatMap.mp ha with ⟨c, _, hmem⟩
      by_cases he : containsSub archiveMarker c = true
      · simp [he] at hmem
      · simp only [Bool.not_eq_true] at he
        simp only [he, Bool.false_eq_true, if_false] at hmem
        simp [mem_commentZone_type hmem]
    rw [h1, h2, h3, flatMap_if_filter]
    simp
  · decide

/-- Claim C3 (amended): whenever the index returns zero snapshots, the
stream consists of exactly two events, the initial contacting progress
event followed by the completion event with the no-snapshots message, and
then terminates. -/
theorem scan_empty_index_stream :
    ∀ (domain kw : List Char) (f : Nat → Option Doc) (cutoff : Option Nat),
      scanEvents domain kw [] f cutoff =
        [ScanProgress.progress (contactingMsg domain) none none,
         ScanProgress.complete noSnapshotsMsg] := by
  intro domain kw f cutoff
  rfl

/-- Claim C3 counterexample: with zero snapshots the stream is not the
single completion event the claim describes, because the contacting
progress event precedes it. -/
theorem scan_empty_index_single_event_cex :
    scanEvents "example.com".toList "x".toList [] (fun _ => none) none ≠
      [ScanProgress.complete noSnapshotsMsg] := by
  decide

/-- Claim C4: fetchSnapshots never throws to its caller; every failure
mode of the index request, a rejected fetch or timeout, a non-success
status, an unparseable body, a non-array payload, or rows that fail to
destructure, yields the empty sequence, and the result of an unreachable
index coincides with that of a header-only response, so the caller cannot
tell the two apart. -/
theorem fetchSnapshots_failures_empty :
    ∀ (dom : List Char) (yr : Option (List Char)) (lim : Nat),
      fetchSnapshots dom yr lim IndexOutcome.netErr = [] ∧
      (∀ body, fetchSnapshots dom yr lim (IndexOutcome.httpResp false body) = []) ∧
      fetchSnapshots dom yr lim (IndexOutcome.httpResp true none) = [] ∧
      (∀ v, isJArr v = false →
        fetchSnapshots dom yr lim (IndexOutcome.httpResp true (some v)) = []) ∧
      (∀ xs : List JVal, rowsToSnapshots (xs.drop 1) = none →
        fetchSnapshots dom yr lim (IndexOutcome.httpResp true (some (JVal.jarr xs))) = []) ∧
      (∀ hdr : JVal, fetchSnapshots dom yr lim IndexOutcome.netErr =
        fetchSnapshots dom yr lim (IndexOutcome.httpResp true (some (JVal.jarr [hdr])))) := by
  intro dom yr lim
  refine ⟨rfl, fun body => rfl, rfl, ?_, ?_, fun hdr => rfl⟩
  · intro v hv
    cases v <;> first | rfl | simp [isJArr] at hv
  · intro xs h
    rw [List.drop_one] at h
    by_cases hl : xs.length ≤ 1
    · simp [fetchSnapshots, hl]
    · simp [fetchSnapshots, hl, h]

/-- Claim C4 witness: concrete failure outcomes all yield the empty
snapshot list. -/
theorem fetchSnapshots_failures_empty_witness :
    (isJArr JVal.jnull = false ∧
      rowsToSnapshots ([JVal.jarr [], JVal.jnull].drop 1) = none) ∧
    fetchSnapshots "example.com".toList none 100 IndexOutcome.netErr = [] ∧
    fetchSnapshots "example.com".toList none 100
      (IndexOutcome.httpResp true (some JVal.jnull)) = [] ∧
    fetchSnapshots "example.com".toList none 100
      (IndexOutcome.httpResp true (some (JVal.jarr [JVal.jarr [], JVal.jnull]))) = [] := by
  have h := fetchSnapshots_failures_empty "example.com".toList none 100
  exact ⟨⟨rfl, rfl⟩, h.1, h.2.2.2.1 JVal.jnull rfl,
    h.2.2.2.2.1 [JVal.jarr [], JVal.jnull] rfl⟩

theorem rowsToSnapshots_good : ∀ (rows : List JVal) (snaps : List Snapshot),
    rowsToSnapshots rows = some snaps →
    (∀ r ∈ rows, ∃ t o rest, r = JVal.jarr (JVal.jstr t :: JVal.jstr o :: rest)
      ∧ t ≠ [] ∧ o ≠ []) →
    ∀ s ∈ snaps,
      fieldNonEmptyStr s.timestamp = true ∧ fieldNonEmptyStr s.original = true := by
  intro rows
  induction rows with
  | nil =>
    intro snaps h _ s hs
    simp only [rowsToSnapshots] at h
    injection h with h
    rw [← h] at hs
    simp at hs
  | cons r rs ih =>
    intro snaps h hgood s hs
    obtain ⟨t, o, rest, rfl, ht, ho⟩ := hgood r (by simp)
    simp only [rowsToSnapshots, destructure2] at h
    cases hrs : rowsToSnapshots rs with
    | none => rw [hrs] at h; simp at h
    | some ss =>
      rw [hrs] at h
      injection h with h
      rw [← h] at hs
      rcases List.mem_cons.mp hs with rfl | hs2
      · constructor
        · show fieldNonEmptyStr (fieldAt (JVal.jstr t :: JVal.jstr o :: rest) 0) = true
          cases t with
          | nil => exact absurd rfl ht
          | cons x xs => rfl
        · show fieldNonEmptyStr (fieldAt (JVal.jstr t :: JVal.jstr o :: rest) 1) = true
          cases o with
          | nil => exact absurd rfl ho
          | cons x xs => rfl
      · exact ih ss hrs (fun r hr => hgood r (by simp [hr])) s hs2

/-- Claim C9 (amended): fetchSnapshots forwards the row fields verbatim
without validating them; whenever every data row after the header carries
non-empty strings in its first two positions, every returned Snapshot has
a non-empty string timestamp and originalUrl. -/
theorem fetchSnapshots_fields_verbatim :
    ∀ (dom : List Char) (yr : Option (List Char)) (lim : Nat) (xs : List JVal),
      (∀ r ∈ xs.drop 1, ∃ t o rest, r = JVal.jarr (JVal.jstr t :: JVal.jstr o :: rest)
        ∧ t ≠ [] ∧ o ≠ []) →
      ∀ s ∈ fetchSnapshots dom yr lim (IndexOutcome.httpResp true (some (JVal.jarr xs))),
        fieldNonEmptyStr s.timestamp = true ∧ fieldNonEmptyStr s.original = true := by
  intro dom yr lim xs hgood s hs
  by_cases hl : xs.length ≤ 1
  · simp [fetchSnapshots, hl] at hs
  · simp only [fetchSnapshots, hl, if_false] at hs
    cases hrs : rowsToSnapshots (xs.drop 1) with
    | none => rw [hrs] at hs; simp at hs
    | some snaps =>
      rw [hrs] at hs
      simp only at hs
      exact rowsToSnapshots_good (xs.drop 1) snaps hrs hgood s hs

/-- Claim C9 witness: a well-formed two-row response with non-empty string
fields produces snapshots satisfying the invariant. -/
theorem fetchSnapshots_fields_verbatim_witness :
    (∀ r ∈ ([JVal.jarr [], JVal.jarr [JVal.jstr "20200101000000".toList,
        JVal.jstr "http://example.com/".toList]] : List JVal).drop 1,
      ∃ t o rest, r = JVal.jarr (JVal.jstr t :: JVal.jstr o :: rest)
        ∧ t ≠ [] ∧ o ≠ []) ∧
    ∀ s ∈ fetchSnapshots "example.com".toList none 100
        (IndexOutcome.httpResp true (some (JVal.jarr
          [JVal.jarr [], JVal.jarr [JVal.jstr "20200101000000".toList,
            JVal.jstr "http://example.com/".toList]]))),
      fieldNonEmptyStr s.timestamp = true ∧ fieldNonEmptyStr s.original = true := by
  have hgood : ∀ r ∈ ([JVal.jarr [], JVal.jarr [JVal.jstr "20200101000000".toList,
      JVal.jstr "http://example.com/".toList]] : List JVal).drop 1,
      ∃ t o rest, r = JVal.jarr (JVal.jstr t :: JVal.jstr o :: rest)
        ∧ t ≠ [] ∧ o ≠ [] := by
    intro r hr
    simp only [List.drop_succ_cons, List.drop_zero, List.mem_singleton] at hr
    exact ⟨"20200101000000".toList, "http://example.com/".toList, [], hr, by decide, by decide⟩
  exact ⟨hgood, fetchSnapshots_fields_verbatim "example.com".toList none 100 _ hgood⟩

/-- Claim C9 counterexample: the external index can answer with an empty
string in a row, and fetchSnapshots forwards it, producing a snapshot
whose timestamp and originalUrl are empty. -/
theorem fetchSnapshots_nonempty_cex :
    ¬ (∀ s ∈ fetchSnapshots "d".toList none 100
        (IndexOutcome.httpResp true (some (JVal.jarr
          [JVal.jarr [], JVal.jarr [JVal.jstr [], JVal.jstr []]]))),
      fieldNonEmptyStr s.timestamp = true ∧ fieldNonEmptyStr s.original = true) := by
  intro h
  have hlist : fetchSnapshots "d".toList none 100
      (IndexOutcome.httpResp true (some (JVal.jarr
        [JVal.jarr [], JVal.jarr [JVal.jstr [], JVal.jstr []]]))) =
      [⟨JSField.val (JVal.jstr []), JSField.val (JVal.jstr [])⟩] := rfl
  have h2 := h ⟨JSField.val (JVal.jstr []), JSField.val (JVal.jstr [])⟩
    (by rw [hlist]; exact List.mem_cons_self _ _)
  simp [fieldNonEmptyStr] at h2

/-- Claim C7: extraction over a zone consisting only of adjacent
case-insensitive copies of the keyword terminates and yields exactly one
match per copy, at the block boundaries; the exec loop is finished within
its fuel bound (any larger fuel gives the same positions), and a document
whose single script body is such a zone yields exactly one match per
copy. -/
theorem findAll_adjacent_blocks :
    ∀ (kw : List Char) (blocks : List (List Char)) (ts url : List Char),
      kw ≠ [] →
      (∀ b ∈ blocks, b.map Char.toLower = kw.map Char.toLower) →
      findAll (patOf kw) blocks.join = (List.range blocks.length).map (· * kw.length) ∧
      (∀ fuel, blocks.join.length + 2 ≤ fuel →
        execLoopAux (patOf kw) blocks.join fuel 0 = findAll (patOf kw) blocks.join) ∧
      (extractData ⟨[], [blocks.join], []⟩ kw ts url).length = blocks.length := by
  intro kw blocks ts url hk hbl
  refine ⟨findAll_join_blocks kw blocks hk hbl, ?_, ?_⟩
  · intro fuel hf
    exact execLoopAux_stable (by omega) (by omega)
  · have hflat : extractData ⟨[], [blocks.join], []⟩ kw ts url =
        (if blocks.join.isEmpty then [] else jsZoneMatches kw ts url blocks.join) := by
      unfold extractData
      have h1 : textZoneMatches kw ts url (textOf ⟨[], [blocks.join], []⟩) = [] := by
        unfold textZoneMatches
        rw [show textOf ⟨[], [blocks.join], []⟩ = [] from rfl]
        rw [findAll_nil_of_ne hk]
        rfl
      rw [h1]
      rw [show extractComments (Doc.mk [] [blocks.join] []).serialized = [] from rfl]
      simp
    rw [hflat]
    cases hbs : blocks with
    | nil => simp
    | cons b bs =>
      have hb : b.map Char.toLower = kw.map Char.toLower := by
        apply hbl
        rw [hbs]
        simp
      have hlen : b.length = kw.length := by simpa using congrArg List.length hb
      have hbne : b ≠ [] := by
        intro e
        rw [e] at hlen
        cases kw with
        | nil => exact hk rfl
        | cons x xs => simp at hlen
      have hjoin : (b :: bs).join = b ++ bs.join := by simp
      have hne : ((b :: bs).join).isEmpty = false := by
        rw [hjoin]
        cases b with
        | nil => exact absurd rfl hbne
        | cons x xs => rfl
      rw [if_neg (by rw [hne]; exact Bool.false_ne_true)]
      unfold jsZoneMatches
      rw [List.length_map]
      rw [show (b :: bs).join = blocks.join from by rw [hbs]]
      rw [findAll_join_blocks kw blocks hk hbl]
      rw [List.length_map, List.length_range, hbs]

/-- Claim C7 witness: the zone aaa searched for the keyword a yields
exactly the three positions 0, 1, 2, the loop is fuel-stable, and the
extraction of a document holding that zone as its script yields exactly 3
matches. -/
theorem findAll_adjacent_blocks_witness :
    (("a".toList ≠ []) ∧
      (∀ b ∈ ([['a'], ['a'], ['a']] : List (List Char)),
        b.map Char.toLower = "a".toList.map Char.toLower)) ∧
    (findAll (patOf "a".toList) ([['a'], ['a'], ['a']] : List (List Char)).join =
        (List.range ([['a'], ['a'], ['a']] : List (List Char)).length).map
          (· * "a".toList.length) ∧
      (∀ fuel, ([['a'], ['a'], ['a']] : List (List Char)).join.length + 2 ≤ fuel →
        execLoopAux (patOf "a".toList) ([['a'], ['a'], ['a']] : List (List Char)).join fuel 0 =
          findAll (patOf "a".toList) ([['a'], ['a'], ['a']] : List (List Char)).join) ∧
      (extractData ⟨[], [([['a'], ['a'], ['a']] : List (List Char)).join], []⟩
          "a".toList "t".toList "u".toList).length =
        ([['a'], ['a'], ['a']] : List (List Char)).length) :=
  ⟨⟨by decide, by decide⟩,
    findAll_adjacent_blocks "a".toList [['a'], ['a'], ['a']] "t".toList "u".toList
      (by decide) (by decide)⟩

/-- Claim C6 (amended): every match snippet is the ellipsis-bounded window
of the keyword occurrence plus up to 30 characters of context on each side
of its zone text; the window is taken from the collapsed text with
newlines replaced by spaces for TEXT, has newlines replaced by spaces and
is edge-trimmed for JS, and is only edge-trimmed for COMMENT, where
interior newlines are retained. -/
theorem extractData_snippet_shape :
    ∀ (d : Doc) (kw ts url : List Char) (m : ScanMatch),
      m ∈ extractData d kw ts url →
      ∃ zone i, litMatchAt kw zone i = true ∧
        ((m.matchType = MatchType.TEXT ∧ zone = textOf d ∧
            m.snippet = ellipsisWrap (stripNl (window zone kw.length i))) ∨
         (m.matchType = MatchType.JS ∧ zone ∈ d.scripts ∧
            m.snippet = ellipsisWrap (jsTrim (stripNl (window zone kw.length i)))) ∨
         (m.matchType = MatchType.COMMENT ∧ zone ∈ extractComments d.serialized ∧
            containsSub archiveMarker zone = false ∧
            m.snippet = ellipsisWrap (jsTrim (window zone kw.length i)))) := by
  intro d kw ts url m hm
  unfold extractData at hm
  simp only [List.mem_append, List.mem_flatMap] at hm
  rcases hm with (h | ⟨s, hs, h⟩) | ⟨c, hc, h⟩
  · unfold textZoneMatches at h
    rcases List.mem_map.mp h with ⟨i, hi, rfl⟩
    exact ⟨textOf d, i, (findAll_sound hi).1, Or.inl ⟨rfl, rfl, rfl⟩⟩
  · by_cases he : s.isEmpty = true
    · simp [he] at h
    · simp only [Bool.not_eq_true] at he
      simp only [he, Bool.false_eq_true, if_false] at h
      unfold jsZoneMatches at h
      rcases List.mem_map.mp h with ⟨i, hi, rfl⟩
      exact ⟨s, i, (findAll_sound hi).1, Or.inr (Or.inl ⟨rfl, hs, rfl⟩)⟩
  · by_cases he : containsSub archiveMarker c = true
    · simp [he] at h
    · simp only [Bool.not_eq_true] at he
      simp only [he, Bool.false_eq_true, if_false] at h
      unfold commentZoneMatches at h
      rcases List.mem_map.mp h with ⟨i, hi, rfl⟩
      exact ⟨c, i, (findAll_sound hi).1, Or.inr (Or.inr ⟨rfl, hc, he, rfl⟩)⟩

/-- Claim C6 witness: a concrete TEXT match whose snippet is exactly the
ellipsis-bounded window around the occurrence. -/
theorem extractData_snippet_shape_witness :
    ((⟨"t".toList, "u".toList, MatchType.TEXT, "...xkwy...".toList⟩ : ScanMatch) ∈
        extractData ⟨"xkwy".toList, [], []⟩ "kw".toList "t".toList "u".toList) ∧
    (∃ zone i, litMatchAt "kw".toList zone i = true ∧
      (((⟨"t".toList, "u".toList, MatchType.TEXT, "...xkwy...".toList⟩ : ScanMatch).matchType
            = MatchType.TEXT ∧
          zone = textOf ⟨"xkwy".toList, [], []⟩ ∧
          (⟨"t".toList, "u".toList, MatchType.TEXT, "...xkwy...".toList⟩ : ScanMatch).snippet
            = ellipsisWrap (stripNl (window zone "kw".toList.length i))) ∨
       ((⟨"t".toList, "u".toList, MatchType.TEXT, "...xkwy...".toList⟩ : ScanMatch).matchType
            = MatchType.JS ∧
          zone ∈ (⟨"xkwy".toList, [], []⟩ : Doc).scripts ∧
          (⟨"t".toList, "u".toList, MatchType.TEXT, "...xkwy...".toList⟩ : ScanMatch).snippet
            = ellipsisWrap (jsTrim (stripNl (window zone "kw".toList.length i)))) ∨
       ((⟨"t".toList, "u".toList, MatchType.TEXT, "...xkwy...".toList⟩ : ScanMatch).matchType
            = MatchType.COMMENT ∧
          zone ∈ extractComments (⟨"xkwy".toList, [], []⟩ : Doc).serialized ∧
          containsSub archiveMarker zone = false ∧
          (⟨"t".toList, "u".toList, MatchType.TEXT, "...xkwy...".toList⟩ : ScanMatch).snippet
            = ellipsisWrap (jsTrim (window zone "kw".toList.length i))))) :=
  ⟨by decide,
    extractData_snippet_shape ⟨"xkwy".toList, [], []⟩ "kw".toList "t".toList "u".toList
      ⟨"t".toList, "u".toList, MatchType.TEXT, "...xkwy...".toList⟩ (by decide)⟩

/-- Claim C6 counterexample: a COMMENT snippet is only edge-trimmed, so an
interior newline within the context window survives into the snippet,
contradicting the claim that newlines are stripped for COMMENT matches. -/
theorem comment_snippet_newline_cex :
    (⟨"t".toList, "u".toList, MatchType.COMMENT, "...ab\ncd...".toList⟩ : ScanMatch) ∈
        extractData ⟨[], [], "<!--ab\ncd-->".toList⟩ "cd".toList "t".toList "u".toList ∧
      '\n' ∈ ("...ab\ncd...".toList : List Char) := by
  exact ⟨by decide, by decide⟩

/-- Claim C2: once the disconnection is observed at the top of a
per-snapshot iteration, the orchestrator emits nothing further: the
stream consists of the two opening progress events followed by exactly
the iteration events of the snapshots before the cutoff, and contains no
completion event. -/
theorem scan_disconnect_stops :
    ∀ (domain kw : List Char) (snaps : List Snapshot) (f : Nat → Option Doc) (k : Nat),
      k < snaps.length →
      (scanEvents domain kw snaps f (some k) =
        ScanProgress.progress (contactingMsg domain) none none ::
        ScanProgress.progress (analyzingMsg snaps.length kw) (some 0) (some snaps.length) ::
        cutEvents kw f snaps.length snaps 0 k) ∧
      (∀ m, ScanProgress.complete m ∉ scanEvents domain kw snaps f (some k)) := by
  intro domain kw snaps f k hk
  have hne : ¬snaps.length = 0 := by omega
  have hcut : scanLoop kw f (some k) snaps.length snaps 0 false =
      cutEvents kw f snaps.length snaps 0 k := by
    have h := @scanLoop_cut kw f snaps.length snaps 0 k false (by omega)
    rw [Nat.zero_add] at h
    exact h
  constructor
  · unfold scanEvents
    rw [if_neg hne, hcut]
  · intro m hm
    unfold scanEvents at hm
    rw [if_neg hne, hcut] at hm
    rcases List.mem_cons.mp hm with h | hm2
    · cases h
    · rcases List.mem_cons.mp hm2 with h | hm3
      · cases h
      · exact complete_not_mem_cutEvents snaps 0 k m hm3

/-- Claim C2 witness: with two snapshots and a disconnection observed at
the top of the second iteration, the stream is the two opening progress
events plus the first iteration events only, with no completion event. -/
theorem scan_disconnect_stops_witness :
    (1 < ([⟨JSField.val (JVal.jstr "20200101000000".toList),
            JSField.val (JVal.jstr "http://a/".toList)⟩,
          ⟨JSField.val (JVal.jstr "20210101000000".toList),
            JSField.val (JVal.jstr "http://b/".toList)⟩] : List Snapshot).length) ∧
    ((scanEvents "example.com".toList "kw".toList
        [⟨JSField.val (JVal.jstr "20200101000000".toList),
            JSField.val (JVal.jstr "http://a/".toList)⟩,
          ⟨JSField.val (JVal.jstr "20210101000000".toList),
            JSField.val (JVal.jstr "http://b/".toList)⟩]
        (fun _ => none) (some 1) =
      ScanProgress.progress (contactingMsg "example.com".toList) none none ::
      ScanProgress.progress (analyzingMsg
        ([⟨JSField.val (JVal.jstr "20200101000000".toList),
            JSField.val (JVal.jstr "http://a/".toList)⟩,
          ⟨JSField.val (JVal.jstr "20210101000000".toList),
            JSField.val (JVal.jstr "http://b/".toList)⟩] : List Snapshot).length
        "kw".toList) (some 0)
        (some ([⟨JSField.val (JVal.jstr "20200101000000".toList),
            JSField.val (JVal.jstr "http://a/".toList)⟩,
          ⟨JSField.val (JVal.jstr "20210101000000".toList),
            JSField.val (JVal.jstr "http://b/".toList)⟩] : List Snapshot).length) ::
      cutEvents "kw".toList (fun _ => none)
        ([⟨JSField.val (JVal.jstr "20200101000000".toList),
            JSField.val (JVal.jstr "http://a/".toList)⟩,
          ⟨JSField.val (JVal.jstr "20210101000000".toList),
            JSField.val (JVal.jstr "http://b/".toList)⟩] : List Snapshot).length
        [⟨JSField.val (JVal.jstr "20200101000000".toList),
            JSField.val (JVal.jstr "http://a/".toList)⟩,
          ⟨JSField.val (JVal.jstr "20210101000000".toList),
            JSField.val (JVal.jstr "http://b/".toList)⟩] 0 1) ∧
    (∀ m, ScanProgress.complete m ∉ scanEvents "example.com".toList "kw".toList
        [⟨JSField.val (JVal.jstr "20200101000000".toList),
            JSField.val (JVal.jstr "http://a/".toList)⟩,
          ⟨JSField.val (JVal.jstr "20210101000000".toList),
            JSField.val (JVal.jstr "http://b/".toList)⟩]
        (fun _ => none) (some 1))) :=
  ⟨by decide,
    scan_disconnect_stops "example.com".toList "kw".toList
      [⟨JSField.val (JVal.jstr "20200101000000".toList),
          JSField.val (JVal.jstr "http://a/".toList)⟩,
        ⟨JSField.val (JVal.jstr "20210101000000".toList),
          JSField.val (JVal.jstr "http://b/".toList)⟩]
      (fun _ => none) 1 (by decide)⟩

/-- Claim C1: scanning a single snapshot whose page contains the keyword
exactly once in the visible body text, exactly once across the script
bodies, and exactly once across the non-archive comments emits exactly 3
match events with matchType TEXT, JS, COMMENT in that order, each carrying
the replay archive URL built from the snapshot timestamp and original
URL. -/
theorem scan_three_zone_matches :
    ∀ (domain tsS origS kw : List Char) (d : Doc),
      kw ≠ [] →
      occCount kw (textOf d) = 1 →
      (d.scripts.map fun s => occCount kw s).sum = 1 →
      (((extractComments d.serialized).filter
          (fun c => !containsSub archiveMarker c)).map fun c => occCount kw c).sum = 1 →
      (((scanEvents domain kw
          [⟨JSField.val (JVal.jstr tsS), JSField.val (JVal.jstr origS)⟩]
          (fun _ => some d) none).filterMap getMatch).map ScanMatch.matchType =
        [MatchType.TEXT, MatchType.JS, MatchType.COMMENT]) ∧
      (∀ m ∈ (scanEvents domain kw
          [⟨JSField.val (JVal.jstr tsS), JSField.val (JVal.jstr origS)⟩]
          (fun _ => some d) none).filterMap getMatch,
        m.archiveUrl = "https://web.archive.org/web/".toList ++ tsS ++ "/".toList ++ origS) := by
  intro domain tsS origS kw d hk ht hjs hcm
  have hstream : (scanEvents domain kw
      [⟨JSField.val (JVal.jstr tsS), JSField.val (JVal.jstr origS)⟩]
      (fun _ => some d) none).filterMap getMatch =
      extractData d kw tsS (archiveUrlOf tsS origS) := by
    unfold scanEvents
    rw [if_neg (by simp)]
    simp only [scanLoop, connectedAt, jsFieldStr, jvalStr, Bool.true_eq_false, if_false]
    simp [List.filterMap_cons, getMatch, List.filterMap_append, filterMap_getMatch_map]
    have hcomp : (getMatch ∘ ScanProgress.matched) = some := by
      funext x
      rfl
    rw [hcomp, List.filterMap_some]
  have ha : (findAll (patOf kw) (textOf d)).length = 1 := by
    rw [findAll_length_eq_occCount hk (by omega)]
    exact ht
  have hb : (d.scripts.map fun s =>
      if s.isEmpty then 0 else (findAll (patOf kw) s).length).sum = 1 := by
    have hcong : ∀ s ∈ d.scripts,
        (if s.isEmpty then 0 else (findAll (patOf kw) s).length) = occCount kw s := by
      intro s hsmem
      have hle : occCount kw s ≤ 1 := by
        have hmem : occCount kw s ∈ d.scripts.map fun s => occCount kw s :=
          List.mem_map_of_mem _ hsmem
        have := le_sum_of_mem_nat hmem
        omega
      by_cases he : s.isEmpty = true
      · have hsnil : s = [] := List.isEmpty_iff.mp he
        rw [if_pos he, hsnil, occCount_nil hk]
      · rw [if_neg he]
        exact findAll_length_eq_occCount hk hle
    rw [List.map_congr_left hcong]
    exact hjs
  have hc : ((extractComments d.serialized).map fun c =>
      if containsSub archiveMarker c then 0 else (findAll (patOf kw) c).length).sum = 1 := by
    rw [sum_map_if_filter]
    have hcong : ∀ c ∈ (extractComments d.serialized).filter
        (fun c => !containsSub archiveMarker c),
        (findAll (patOf kw) c).length = occCount kw c := by
      intro c hcmem
      have hle : occCount kw c ≤ 1 := by
        have hmem : occCount kw c ∈ ((extractComments d.serialized).filter
            (fun c => !containsSub archiveMarker c)).map fun c => occCount kw c :=
          List.mem_map_of_mem _ hcmem
        have := le_sum_of_mem_nat hmem
        omega
      exact findAll_length_eq_occCount hk hle
    rw [List.map_congr_left hcong]
    exact hcm
  have htype := extractData_map_matchType d kw tsS (archiveUrlOf tsS origS)
  rw [ha, hb, hc] at htype
  simp only [List.replicate_one, List.singleton_append, List.cons_append,
    List.nil_append] at htype
  constructor
  · rw [hstream, htype]
  · intro m hm
    rw [hstream] at hm
    have hfield := (extractData_fields m hm).2
    rw [hfield]
    rfl

/-- Claim C1 witness: a concrete page holding the keyword once in the
body text, once in a script, and once in a non-archive comment yields the
three match events TEXT, JS, COMMENT with the replay URL. -/
theorem scan_three_zone_matches_witness :
    (("kw".toList ≠ []) ∧
      occCount "kw".toList (textOf ⟨"hello kw world".toList, ["var x = kw;".toList],
        "<html><body>hello kw world<!-- kw here --></body></html>".toList⟩) = 1 ∧
      ((⟨"hello kw world".toList, ["var x = kw;".toList],
          "<html><body>hello kw world<!-- kw here --></body></html>".toList⟩ : Doc).scripts.map
        fun s => occCount "kw".toList s).sum = 1 ∧
      (((extractComments (⟨"hello kw world".toList, ["var x = kw;".toList],
          "<html><body>hello kw world<!-- kw here --></body></html>".toList⟩ : Doc).serialized).filter
          (fun c => !containsSub archiveMarker c)).map
        fun c => occCount "kw".toList c).sum = 1) ∧
    ((((scanEvents "example.com".toList "kw".toList
        [⟨JSField.val (JVal.jstr "20200101000000".toList),
          JSField.val (JVal.jstr "http://example.com/".toList)⟩]
        (fun _ => some ⟨"hello kw world".toList, ["var x = kw;".toList],
          "<html><body>hello kw world<!-- kw here --></body></html>".toList⟩)
        none).filterMap getMatch).map ScanMatch.matchType =
      [MatchType.TEXT, MatchType.JS, MatchType.COMMENT]) ∧
    (∀ m ∈ (scanEvents "example.com".toList "kw".toList
        [⟨JSField.val (JVal.jstr "20200101000000".toList),
          JSField.val (JVal.jstr "http://example.com/".toList)⟩]
        (fun _ => some ⟨"hello kw world".toList, ["var x = kw;".toList],
          "<html><body>hello kw world<!-- kw here --></body></html>".toList⟩)
        none).filterMap getMatch,
      m.archiveUrl = "https://web.archive.org/web/".toList ++ "20200101000000".toList
        ++ "/".toList ++ "http://example.com/".toList)) :=
  ⟨⟨by decide, by decide, by decide, by decide⟩,
    scan_three_zone_matches "example.com".toList "20200101000000".toList
      "http://example.com/".toList "kw".toList
      ⟨"hello kw world".toList, ["var x = kw;".toList],
        "<html><body>hello kw world<!-- kw here --></body></html>".toList⟩
      (by decide) (by decide) (by decide) (by decide)⟩
